import Mathlib

/-!
# Verification of the CT-scan discrete-event simulation core

Shallow embedding, in Lean 4, of the patient-flow simulation engine of this
repository (files `ct_scan_shands_des_current.py` and
`ct_scan_shands_des_v1.3_WIP.py`), together with proofs and refutations of the
frozen specification claims.

Conventions of the embedding:
* Python floats are modelled as exact rationals (`ℚ`); the real-valued
  log-normal sampler is modelled over `ℝ` with the underlying standard normal
  draw passed explicitly.
* Stochastic draws are passed as explicit arguments (a draw function or a list
  of draws), so every property is quantified over all possible draws.
* Python's `list.index(min(...))` (first index of the minimum) is embedded as
  `argminIdx`; Python dict lookups that raise `KeyError` become `Option`
  lookups; `dict.get(k, default)` becomes a total lookup with a default.
* The field `end` of a ScannerEvent is named `stop` (`end` is a Lean keyword).
-/

namespace CTScanDES

/-! ## Scanner events and the Day Orchestrator post-pass

Embeds the idle-time post-pass of `simulate_one_day`
(`ct_scan_shands_des_current.py` lines 424-446, `ct_scan_shands_des_v1.3_WIP.py`
lines 462-487): completed events, already sorted by start time, are walked in
order; each is assigned to the scanner whose next-free timestamp is earliest
(`scanner_free_times.index(min(scanner_free_times))`), accumulating the idle
gap `max(0, start - free)`.  The scalar accumulator `total_idle_time` of the
source is decomposed here into its per-scanner contributions (`gaps`); `busy`
is the per-scanner busy-minutes accumulator of the v1.3 source. -/

/-- One entry of the `scanner_events` list: `{'patient_id': …, 'start': …,
'end': …}` (field `end` renamed `stop`). -/
structure ScanEvent where
  patient_id : ℕ
  start : ℚ
  stop : ℚ
deriving DecidableEq

instance : Inhabited ScanEvent := ⟨⟨0, 0, 0⟩⟩

/-- First index of the minimum of a list: Python's
`lst.index(min(lst))`. Returns 0 on the empty list (Python would raise). -/
def argminIdx : List ℚ → ℕ
  | [] => 0
  | [_] => 0
  | a :: b :: rest =>
    let j := argminIdx (b :: rest)
    if (b :: rest).getD j 0 < a then j + 1 else 0

/-- The post-pass state: `free` is `scanner_free_times`; `gaps` decomposes the
source's `total_idle_time` accumulator per scanner; `busy` is `busy_minutes`
(per-scanner busy durations, v1.3 source). -/
structure PassState where
  free : List ℚ
  gaps : List ℚ
  busy : List ℚ

/-- Initial post-pass state: `scanner_free_times = [0.0] * NUM_SCANNERS`, and
zeroed accumulators. -/
def initState (n : ℕ) : PassState :=
  ⟨List.replicate n 0, List.replicate n 0, List.replicate n 0⟩

/-- The greedy earliest-free-scanner walk of `simulate_one_day`: for each exam
(in the given order) pick the first scanner with minimal free time, accumulate
`max(0, start - free)` as idle gap and `stop - start` as busy time attributed
to it, set its free time to the exam's end, and record the assignment
`exam['scanner'] = earliest_free_scanner`. -/
def runPass (st : PassState) : List ScanEvent → PassState × List (ScanEvent × ℕ)
  | [] => (st, [])
  | e :: rest =>
    let k := argminIdx st.free
    let gap := max 0 (e.start - st.free.getD k 0)
    let st' : PassState :=
      ⟨st.free.set k e.stop,
       st.gaps.set k (st.gaps.getD k 0 + gap),
       st.busy.set k (st.busy.getD k 0 + (e.stop - e.start))⟩
    let r := runPass st' rest
    (r.1, (e, k) :: r.2)

/-- Number of events in `l` still active (end strictly after) at time `s`. -/
def countActive (l : List ScanEvent) (s : ℚ) : ℕ :=
  (l.filter (fun e => decide (s < e.stop))).length

/-- Variant of `countActive` for already-assigned (event, scanner) pairs. -/
def countActiveP (l : List (ScanEvent × ℕ)) (s : ℚ) : ℕ :=
  (l.filter (fun p => decide (s < p.1.stop))).length

/-- Length of a simulated day in minutes: `DAY_LENGTH_MIN = 24 * 60`. -/
def DAY_LENGTH_MIN : ℚ := 24 * 60

/-! ## Arrival Generator

Embeds `generate_patient_arrivals_workflow_derived` (both variants share this
code): the day is split into 24 hours, each with a fixed demand fraction;
deterministic mode converts `daily_patients * fraction` to an integer count
with a fractional carry and places the count evenly inside the hour;
stochastic mode accumulates exponential inter-arrival draws within the hour.
The exponential draws are passed in as an explicit per-hour list of
non-negative increments. -/

/-- Demand fraction of one hour: 7am-7pm gets 70% over 12 hours, 7pm-11pm 20%
over 4 hours, 11pm-7am 10% over 8 hours. -/
def hourFraction (hour : ℕ) : ℚ :=
  if 7 ≤ hour ∧ hour < 19 then (70/100) / 12
  else if 19 ≤ hour ∧ hour < 23 then (20/100) / 4
  else (10/100) / 8

/-- The evenly spaced times of one hour in deterministic mode:
`spacing = 60.0 / (count + 1)`; arrivals at `hour_start_min + spacing * (i+1)`
for `i in range(count)`. -/
def detHourTimes (hour count : ℕ) : List ℚ :=
  (List.range count).map
    (fun i : ℕ => (hour : ℚ) * 60 + (60 / ((count : ℚ) + 1)) * ((i : ℚ) + 1))

/-- Deterministic arrival loop over the remaining `rem` hours starting at
`hour`, with fractional `carry`.  `count = int(expected + carry)`; Python's
`int()` truncation equals the floor on the non-negative values arising here. -/
def detArrivalsGo (daily : ℚ) : ℕ → ℕ → ℚ → List ℚ
  | 0, _, _ => []
  | rem + 1, hour, carry =>
    let expected := daily * hourFraction hour
    let count := (⌊expected + carry⌋).toNat
    let carry' := expected + carry - (count : ℚ)
    detHourTimes hour count ++ detArrivalsGo daily rem (hour + 1) carry'

/-- Deterministic mode of `generate_patient_arrivals_workflow_derived` with
daily patient figure `daily`. -/
def detArrivals (daily : ℚ) : List ℚ := detArrivalsGo daily 24 0 0

/-- Stochastic inner loop of one hour: starting from `current`, add successive
exponential inter-arrival draws; append each arrival while it stays below the
hour boundary, and stop at the first one that crosses it. -/
def stochHourGo (hourEnd : ℚ) : ℚ → List ℚ → List ℚ
  | _, [] => []
  | current, d :: rest =>
    let c := current + d
    if c < hourEnd then c :: stochHourGo hourEnd c rest else []

/-- Stochastic arrival loop over the remaining `rem` hours starting at `hour`;
an hour generates arrivals only when its expected count is positive
(`while current_time < hour_end_min and expected_arrivals > 0`). -/
def stochArrivalsGo (daily : ℚ) (draws : ℕ → List ℚ) : ℕ → ℕ → List ℚ
  | 0, _ => []
  | rem + 1, hour =>
    (if 0 < daily * hourFraction hour
      then stochHourGo (((hour : ℚ) + 1) * 60) ((hour : ℚ) * 60) (draws hour)
      else [])
    ++ stochArrivalsGo daily draws rem (hour + 1)

/-- Stochastic mode of `generate_patient_arrivals_workflow_derived`, the
per-hour exponential increments given by `draws`. -/
def stochArrivals (daily : ℚ) (draws : ℕ → List ℚ) : List ℚ :=
  stochArrivalsGo daily draws 24 0

/-! ## Scenario configuration and patient process

Namespace `DesCurrent` embeds `ct_scan_shands_des_current.py` (6 scanners, 9
robots, baseline 25 scans/day, no scanner turnover); namespace `DesV13`
embeds the points where `ct_scan_shands_des_v1.3_WIP.py` differs (a fourth
`wf_only` scenario, 3 scanners, `TURNOVER_MINUTES = 4.0`).  All timing
constants are written as exact rationals (e.g. 27.43 = 2743/100). -/

/-- Timestamps of one patient's scanner phase in `simulate_one_patient`:
request, grant (`time_when_ct_starts`), the emitted event's start/end, and the
release of the scanner (exit of the `with scanners.request()` block). -/
structure ScanPhase where
  time_when_ct_requested : ℚ
  time_when_ct_starts : ℚ
  ct_wait_time : ℚ
  event_start : ℚ
  event_end : ℚ
  release_time : ℚ

namespace DesCurrent

/-- The three scenarios of the current variant. -/
inductive Scenario
  | baseline
  | rovis_only
  | rovis_workflow
deriving DecidableEq

/-- The eight workflow steps. -/
inductive Step
  | P | A | B1 | B2 | B3 | C1 | C2 | C3
deriving DecidableEq

/-- Step-mean table `STEP_MEANS` of `ct_scan_shands_des_current.py`. -/
def STEP_MEANS : Step → Scenario → ℚ
  | .P, _ => 2743/100
  | .A, .rovis_workflow => 35
  | .A, _ => 5167/100
  | .B1, .baseline => 1177/100
  | .B1, _ => 294/100
  | .B2, .baseline => 338/100
  | .B2, _ => 85/100
  | .B3, .baseline => 655/100
  | .B3, _ => 164/100
  | .C1, _ => 5
  | .C2, _ => 8/5
  | .C3, _ => 1211/100

/-- Step variability table `STEP_SIGMA`. -/
def STEP_SIGMA : Step → ℚ
  | .P => 30/100
  | .A => 35/100
  | .B1 => 40/100
  | .B2 => 30/100
  | .B3 => 40/100
  | .C1 => 20/100
  | .C2 => 15/100
  | .C3 => 25/100

/-- Order of steps for totals, `STEP_ORDER`. -/
def STEP_ORDER : List Step := [.P, .A, .B1, .B2, .B3, .C1, .C2, .C3]

def NUM_SCANNERS : ℕ := 6

def NUM_ROBOTS : ℕ := 9

def BOOKING_CONVERSION : ℚ := 60/100

def ROBOT_UPTIME : ℚ := 80/100

def SCANNER_HOURS_PER_DAY : ℚ := 24 * 60

def AVG_SCAN_DURATION : ℚ := 1211/100

def baseline_daily_capacity : ℚ := 25

/-- Python's `round(x, 1)` (one decimal place).  Python rounds ties to even
while Mathlib's `round` rounds ties up; the two agree except when `10*x` is a
half-integer, which never occurs for the step-mean sums this is applied to
(their tenfold values have fractional parts .1, .4 and .7). -/
def pyRound1 (x : ℚ) : ℚ := ((round (10 * x) : ℤ) : ℚ) / 10

/-- Theoretical per-exam total `get_theoretical_total`: sum of the scenario's
step means, rounded to one decimal for reporting. -/
def get_theoretical_total (scen : Scenario) : ℚ :=
  pyRound1 ((STEP_ORDER.map (fun st => STEP_MEANS st scen)).sum)

/-- Daily patient figure used by `generate_patient_arrivals_workflow_derived`
when no explicit deterministic figure is supplied. -/
def daily_patients (scen : Scenario) : ℚ :=
  if scen = .baseline then baseline_daily_capacity
  else
    let baseline_transport_time :=
      get_theoretical_total .baseline - 2743/100 - 1211/100
    let scenario_transport_time :=
      get_theoretical_total scen - 2743/100 - 1211/100
    let capacity_improvement :=
      if 0 < baseline_transport_time
        then baseline_transport_time / scenario_transport_time else 1
    let theoretical_improved_capacity :=
      baseline_daily_capacity * capacity_improvement
    let improved_daily_capacity := baseline_daily_capacity
      + (theoretical_improved_capacity - baseline_daily_capacity) * BOOKING_CONVERSION
    let max_scanner_capacity :=
      SCANNER_HOURS_PER_DAY * (NUM_SCANNERS : ℚ) / AVG_SCAN_DURATION
    min improved_daily_capacity max_scanner_capacity

/-- Transport portion of the theoretical total: the total minus the P and C3
means, as subtracted in the source. -/
def transport_time (scen : Scenario) : ℚ :=
  get_theoretical_total scen - 2743/100 - 1211/100

/-- Theoretical improved capacity: baseline capacity scaled by the
transport-efficiency ratio (`baseline_transport_time / scenario_transport_time`). -/
def theoretical_improved_capacity (scen : Scenario) : ℚ :=
  baseline_daily_capacity * (transport_time .baseline / transport_time scen)

/-- Physical scanner ceiling `(SCANNER_HOURS_PER_DAY * NUM_SCANNERS) /
AVG_SCAN_DURATION`. -/
def max_scanner_capacity : ℚ :=
  SCANNER_HOURS_PER_DAY * (NUM_SCANNERS : ℚ) / AVG_SCAN_DURATION

/-! ### Robot-assisted transport phase (C7) -/

/-- Robot occupancy `calculate_robot_time`: stage draws B1 + B2 + B3 + C1 at
the scenario's means, plus a repositioning draw; the stochastic per-step draw
is abstracted as `D` and the repositioning draw as `repo`. -/
def calculate_robot_time (scen : Scenario) (D : Step → Scenario → ℚ)
    (repo : ℚ) : ℚ :=
  D .B1 scen + D .B2 scen + D .B3 scen + D .C1 scen + repo

/-- Timeline of the robot-assisted branch of `simulate_one_patient`. -/
structure RobotPhase where
  time_when_robot_requested : ℚ
  time_when_robot_available : ℚ
  robot_wait_time : ℚ
  robot_time : ℚ
  robot_release_time : ℚ
  scanner_request_time : ℚ

/-- Robot-assisted branch of `simulate_one_patient` (non-baseline scenarios):
after the scheduled wait and step A, the robot is requested; `w` is the time
spent blocked until the pool grants it; a single uniform draw `u` decides
success (`random.random() < ROBOT_UPTIME`); the occupancy is the scenario's
stage draws plus repositioning on success and the baseline stage draws plus
repositioning on failure; the robot is released when that occupancy elapses
(exit of the `with robots.request()` block), and step C2 is then waited out
before the scanner is requested. -/
def simulate_one_patient_robot_phase (scheduled stepA w u : ℚ)
    (D : Step → Scenario → ℚ) (repo c2 : ℚ) (scen : Scenario) : RobotPhase :=
  let time_when_robot_requested := scheduled + stepA
  let time_when_robot_available := time_when_robot_requested + w
  let robot_time :=
    if u < ROBOT_UPTIME then calculate_robot_time scen D repo
    else calculate_robot_time .baseline D repo
  { time_when_robot_requested := time_when_robot_requested
    time_when_robot_available := time_when_robot_available
    robot_wait_time := time_when_robot_available - time_when_robot_requested
    robot_time := robot_time
    robot_release_time := time_when_robot_available + robot_time
    scanner_request_time := time_when_robot_available + robot_time + c2 }

/-! ### Scanner phase (C2) and robot pool (C10) in the current variant -/

/-- Scanner phase of `simulate_one_patient` in the current variant: the exam
draw alone is the hold; the event's `end` is `start + exam_time` and the
scanner is released when the exam elapses (no turnover constant exists in
this file). -/
def simulate_one_patient_scan_phase (reqT w exam : ℚ) : ScanPhase :=
  let time_when_ct_starts := reqT + w
  { time_when_ct_requested := reqT
    time_when_ct_starts := time_when_ct_starts
    ct_wait_time := time_when_ct_starts - reqT
    event_start := time_when_ct_starts
    event_end := time_when_ct_starts + exam
    release_time := time_when_ct_starts + exam }

/-- Robot pool creation of `simulate_one_day`: `None` for the baseline
scenario, otherwise a pool of capacity `NUM_ROBOTS`. -/
def robots_pool (scen : Scenario) : Option ℕ :=
  if scen = .baseline then none else some NUM_ROBOTS

/-- Robot interaction of one patient: the baseline branch never touches the
pool handle; other scenarios dereference it (`robots.request()`) — the result
is `none` exactly when the Python code would hit an `AttributeError` on a
`None` pool, and otherwise the patient's additions to
`collected_metrics['robot_waits']`. -/
def patient_robot_waits (scen : Scenario) (robots : Option ℕ) (w : ℚ) :
    Option (List ℚ) :=
  if scen = .baseline then some []
  else
    match robots with
    | none => none
    | some _ => some [w]

/-- Accumulated `robot_waits` of one day, folding `patient_robot_waits` over
each patient's would-be robot wait `w`. -/
def day_robot_waits (scen : Scenario) : List ℚ → Option (List ℚ)
  | [] => some []
  | w :: ws =>
    match patient_robot_waits scen (robots_pool scen) w with
    | none => none
    | some x =>
      match day_robot_waits scen ws with
      | none => none
      | some rest => some (x ++ rest)

end DesCurrent

namespace DesV13

/-- The four scenarios of the v1.3 variant (the `wf_only` column is added to
the tables at module load). -/
inductive Scenario
  | baseline
  | rovis_only
  | rovis_workflow
  | wf_only
deriving DecidableEq

def NUM_SCANNERS : ℕ := 3

def NUM_ROBOTS : ℕ := 6

def TURNOVER_MINUTES : ℚ := 4

def SCANNER_UPTIME : ℚ := 90/100

def LOW_ACUITY_FRACTION : ℚ := 1

def BOOKING_CONVERSION : ℚ := 60/100

def SCANNER_HOURS_PER_DAY : ℚ := 24 * 60

def AVG_SCAN_DURATION : ℚ := 1211/100

/-- Physical scanner ceiling of the v1.3 variant, a module-level constant:
`MAX_SCANNER_CAPACITY = (SCANNER_HOURS_PER_DAY * NUM_SCANNERS) /
AVG_SCAN_DURATION`. -/
def MAX_SCANNER_CAPACITY : ℚ :=
  SCANNER_HOURS_PER_DAY * (NUM_SCANNERS : ℚ) / AVG_SCAN_DURATION

def baseline_daily_capacity : ℚ := 150

/-- Step-mean table of the v1.3 variant (B3 is 4.39 for the robot scenarios
there), including the `wf_only` column the module adds at load time: baseline
timings with the A mean set to 35.  The steps are the same eight, so the step
type of `DesCurrent` is reused. -/
def STEP_MEANS : DesCurrent.Step → Scenario → ℚ
  | .P, _ => 2743/100
  | .A, .rovis_workflow => 35
  | .A, .wf_only => 35
  | .A, _ => 5167/100
  | .B1, .baseline => 1177/100
  | .B1, .wf_only => 1177/100
  | .B1, _ => 294/100
  | .B2, .baseline => 338/100
  | .B2, .wf_only => 338/100
  | .B2, _ => 85/100
  | .B3, .baseline => 655/100
  | .B3, .wf_only => 655/100
  | .B3, _ => 439/100
  | .C1, _ => 5
  | .C2, _ => 8/5
  | .C3, _ => 1211/100

/-- Theoretical per-exam total of the v1.3 variant. -/
def get_theoretical_total (scen : Scenario) : ℚ :=
  DesCurrent.pyRound1
    ((DesCurrent.STEP_ORDER.map (fun st => STEP_MEANS st scen)).sum)

/-- Transport portion of the v1.3 theoretical total (total minus the P and C3
means). -/
def transport_time (scen : Scenario) : ℚ :=
  get_theoretical_total scen - 2743/100 - 1211/100

/-- Theoretical improved capacity of the v1.3 variant. -/
def theoretical_improved_capacity (scen : Scenario) : ℚ :=
  baseline_daily_capacity * (transport_time .baseline / transport_time scen)

/-- Daily patient figure of the v1.3 arrival generator: the same derivation as
the current variant (with the 150/day baseline cap and the module-level
ceiling), then scaled by `LOW_ACUITY_FRACTION` (which is 1.0). -/
def daily_patients (scen : Scenario) : ℚ :=
  (if scen = .baseline then baseline_daily_capacity
   else
    let baseline_transport_time :=
      get_theoretical_total .baseline - 2743/100 - 1211/100
    let scenario_transport_time :=
      get_theoretical_total scen - 2743/100 - 1211/100
    let capacity_improvement :=
      if 0 < baseline_transport_time
        then baseline_transport_time / scenario_transport_time else 1
    let theoretical_improved_capacity :=
      baseline_daily_capacity * capacity_improvement
    let improved_daily_capacity := baseline_daily_capacity
      + (theoretical_improved_capacity - baseline_daily_capacity) * BOOKING_CONVERSION
    min improved_daily_capacity MAX_SCANNER_CAPACITY)
  * LOW_ACUITY_FRACTION

/-- Scanner phase of `simulate_one_patient` in the v1.3 variant: after the
scanner grant, `total_scanner_time = exam_time + TURNOVER_MINUTES` is the
hold; the emitted event ends at `start + total_scanner_time` and the scanner
is released (exit of the `with scanners.request()` block) when that hold
elapses. -/
def simulate_one_patient_scan_phase (reqT w exam : ℚ) : ScanPhase :=
  let time_when_ct_starts := reqT + w
  let total_scanner_time := exam + TURNOVER_MINUTES
  { time_when_ct_requested := reqT
    time_when_ct_starts := time_when_ct_starts
    ct_wait_time := time_when_ct_starts - reqT
    event_start := time_when_ct_starts
    event_end := time_when_ct_starts + total_scanner_time
    release_time := time_when_ct_starts + total_scanner_time }

/-- Manual-transport scenarios of the v1.3 variant: `scenario_name in
("baseline", "wf_only")`. -/
def is_manual (scen : Scenario) : Bool :=
  scen = Scenario.baseline ∨ scen = Scenario.wf_only

/-- Robot pool creation of `simulate_one_day` (v1.3): `None` for baseline and
wf_only, otherwise a pool of capacity `NUM_ROBOTS`. -/
def robots_pool (scen : Scenario) : Option ℕ :=
  if is_manual scen then none else some NUM_ROBOTS

/-- Robot interaction of one patient (v1.3): manual scenarios never touch the
pool handle; robot scenarios dereference it. -/
def patient_robot_waits (scen : Scenario) (robots : Option ℕ) (w : ℚ) :
    Option (List ℚ) :=
  if is_manual scen then some []
  else
    match robots with
    | none => none
    | some _ => some [w]

/-- Accumulated `robot_waits` of one day (v1.3). -/
def day_robot_waits (scen : Scenario) : List ℚ → Option (List ℚ)
  | [] => some []
  | w :: ws =>
    match patient_robot_waits scen (robots_pool scen) w with
    | none => none
    | some x =>
      match day_robot_waits scen ws with
      | none => none
      | some rest => some (x ++ rest)

end DesV13

/-! ## Configuration lookups and failure behaviour (C9)

Models the Python dictionary semantics of `get_step_duration` over arbitrary
mean/variability tables: `STEP_MEANS[step][scenario]` raises a `KeyError`
only when the step is first drawn, `STEP_SIGMA.get(step_name, 0.3)` silently
substitutes the default 0.3, and a non-positive mean raises `math.log`'s
ValueError inside the sampler — again at draw time.  Nothing validates the
configuration at setup. -/

/-- Python `dict[key]` lookup on an association list (`none` = `KeyError`). -/
def dictFind {α : Type} (d : List (String × α)) (k : String) : Option α :=
  (d.find? (fun p => p.1 == k)).map (fun p => p.2)

/-- Python `dict.get(key, default)` on an association list. -/
def dictGetD (d : List (String × ℚ)) (k : String) (dflt : ℚ) : ℚ :=
  match dictFind d k with
  | some v => v
  | none => dflt

/-- Lookup-and-check phase of `get_step_duration`: returns the
`(average_time, variability)` pair that reaches `random.lognormvariate`, or
the error the Python code would raise at draw time. -/
def get_step_duration_checked (means : List (String × List (String × ℚ)))
    (sigmas : List (String × ℚ)) (step scen : String) : Except String (ℚ × ℚ) :=
  match dictFind means step with
  | none => .error "KeyError"
  | some row =>
    match dictFind row scen with
    | none => .error "KeyError"
    | some average_time =>
      let variability := dictGetD sigmas step (3/10)
      if average_time ≤ 0 then .error "ValueError: math domain error"
      else .ok (average_time, variability)

/-! ## Duration Sampler (C3)

Embeds `generate_random_time_with_average`: the code computes
`mu = math.log(average_time) - 0.5 * variability**2` and returns
`random.lognormvariate(mu, variability)`, which is `exp(mu + variability·Z)`
for a standard normal draw `Z`.  The draw `z` is passed explicitly, and the
distributional statement integrates over the standard Gaussian measure. -/

open MeasureTheory ProbabilityTheory in
/-- Log-normal sampler of both variants, with the underlying standard normal
draw `z` explicit: `exp((log mean - 0.5·sigma²) + sigma·z)`. -/
noncomputable def generate_random_time_with_average
    (average_time variability z : ℝ) : ℝ :=
  let mu := Real.log average_time - 0.5 * variability ^ 2
  Real.exp (mu + variability * z)

/-! ### Auxiliary list lemmas -/

theorem getD_set_self (l : List ℚ) (i : ℕ) (h : i < l.length) (a : ℚ) :
    (l.set i a).getD i 0 = a := by
  simp [List.getD_eq_getElem?_getD, List.getElem?_set_self, h]

theorem getD_set_ne (l : List ℚ) {i j : ℕ} (h : i ≠ j) (a : ℚ) :
    (l.set i a).getD j 0 = l.getD j 0 := by
  simp [List.getD_eq_getElem?_getD, List.getElem?_set_ne h]

theorem getD_replicate_zero (n i : ℕ) : (List.replicate n (0:ℚ)).getD i 0 = 0 := by
  simp only [List.getD_eq_getElem?_getD, List.getElem?_replicate]
  split <;> simp

/-! ### Properties of `argminIdx` -/

theorem argminIdx_lt_length : ∀ (l : List ℚ), l ≠ [] → argminIdx l < l.length
  | [], h => absurd rfl h
  | [_], _ => by simp [argminIdx]
  | a :: b :: rest, _ => by
    have ih := argminIdx_lt_length (b :: rest) (by simp)
    simp only [argminIdx]
    split
    · simpa using Nat.succ_lt_succ ih
    · simp

theorem argminIdx_le : ∀ (l : List ℚ) (i : ℕ), i < l.length →
    l.getD (argminIdx l) 0 ≤ l.getD i 0
  | [], i, hi => absurd hi (by simp)
  | [a], i, hi => by
    have : i = 0 := Nat.lt_one_iff.mp (by simpa using hi)
    subst this
    simp [argminIdx]
  | a :: b :: rest, i, hi => by
    have ih := argminIdx_le (b :: rest)
    simp only [argminIdx]
    split
    · rename_i hlt
      match i with
      | 0 =>
        simpa using le_of_lt (lt_of_le_of_lt
          (ih (argminIdx (b :: rest)) (argminIdx_lt_length _ (by simp))) hlt)
      | i + 1 =>
        simpa using ih i (by simpa using Nat.lt_of_succ_lt_succ hi)
    · rename_i hge
      push_neg at hge
      match i with
      | 0 => simp
      | i + 1 =>
        calc (a :: b :: rest).getD 0 0 = a := rfl
          _ ≤ (b :: rest).getD (argminIdx (b :: rest)) 0 := hge
          _ ≤ (b :: rest).getD i 0 := ih i (by simpa using Nat.lt_of_succ_lt_succ hi)
          _ = (a :: b :: rest).getD (i + 1) 0 := rfl

/-! ### Counting lemmas -/

theorem countActive_cons (e : ScanEvent) (l : List ScanEvent) (s : ℚ) :
    countActive (e :: l) s = (if s < e.stop then 1 else 0) + countActive l s := by
  by_cases h : s < e.stop <;> simp [countActive, List.filter_cons, h, Nat.add_comm]

theorem countActiveP_cons (q : ScanEvent × ℕ) (l : List (ScanEvent × ℕ)) (s : ℚ) :
    countActiveP (q :: l) s = (if s < q.1.stop then 1 else 0) + countActiveP l s := by
  by_cases h : s < q.1.stop <;> simp [countActiveP, List.filter_cons, h, Nat.add_comm]

/-! ### Structural lemmas about `runPass` -/

theorem runPass_fst : ∀ (es : List ScanEvent) (st : PassState),
    ((runPass st es).2).map Prod.fst = es
  | [], _ => rfl
  | e :: rest, st => by
    simp [runPass, runPass_fst rest]

theorem runPass_free_length : ∀ (es : List ScanEvent) (st : PassState),
    ((runPass st es).1).free.length = st.free.length
  | [], _ => rfl
  | e :: rest, st => by
    simp only [runPass]
    rw [runPass_free_length rest]
    simp

/-- Pigeonhole step: if strictly fewer than `free.length` already-assigned
events are still active at time `s ≥ 0`, and every nonzero free time is the
end of some assigned event, then the earliest-free scanner is free by `s`
(so the source's `max(0, start - free)` does not clamp). -/
theorem min_free_le_of_count (free : List ℚ) (hist : List (ScanEvent × ℕ)) (s : ℚ)
    (hs : 0 ≤ s)
    (hfree : ∀ k, k < free.length →
      free.getD k 0 = 0 ∨ ∃ p ∈ hist, p.2 = k ∧ p.1.stop = free.getD k 0)
    (hcount : countActiveP hist s < free.length) :
    free.getD (argminIdx free) 0 ≤ s := by
  by_contra hlt
  push_neg at hlt
  have hall : ∀ k, k < free.length → s < free.getD k 0 := fun k hk =>
    lt_of_lt_of_le hlt (argminIdx_le free k hk)
  have hwit : ∀ k : Fin free.length,
      ∃ p, p ∈ hist.filter (fun p => decide (s < p.1.stop)) ∧ p.2 = (k : ℕ) := by
    intro k
    rcases hfree k k.isLt with h0 | ⟨p, hp, hpk, hstop⟩
    · exact absurd (h0 ▸ hall k k.isLt) (not_lt.mpr hs)
    · refine ⟨p, List.mem_filter.mpr ⟨hp, ?_⟩, hpk⟩
      simpa [hstop] using hall k k.isLt
  classical
  set l := hist.filter (fun p => decide (s < p.1.stop)) with hl
  set f : Fin free.length → ScanEvent × ℕ := fun k => Classical.choose (hwit k) with hf
  have hchoose : ∀ k, f k ∈ l ∧ (f k).2 = (k : ℕ) := fun k => Classical.choose_spec (hwit k)
  have hinj : Function.Injective f := by
    intro k1 k2 heq
    apply Fin.ext
    rw [← (hchoose k1).2, ← (hchoose k2).2, heq]
  have hcard : free.length ≤ l.length := by
    have h1 : (Finset.univ.image f).card = free.length := by
      rw [Finset.card_image_of_injective _ hinj, Finset.card_univ, Fintype.card_fin]
    have h2 : Finset.univ.image f ⊆ l.toFinset := by
      intro x hx
      simp only [Finset.mem_image] at hx
      obtain ⟨k, _, rfl⟩ := hx
      exact List.mem_toFinset.mpr (hchoose k).1
    calc free.length = (Finset.univ.image f).card := h1.symm
      _ ≤ l.toFinset.card := Finset.card_le_card h2
      _ ≤ l.length := l.toFinset_card_le
  have : countActiveP hist s = l.length := rfl
  omega

/-- Main invariant of the greedy earliest-free-scanner walk.  `hist` is the
list of events already assigned (with their scanner index) before this suffix
`es` of the sorted event list; the conclusions say that every new assignment
lands on a scanner that is already free, that events assigned to one scanner
form an end-before-start chain, and that per scanner the accumulated
`gaps + busy` grows by exactly the growth of that scanner's free time. -/
theorem runPass_spec : ∀ (es : List ScanEvent) (st : PassState)
    (hist : List (ScanEvent × ℕ)),
    st.free ≠ [] →
    st.gaps.length = st.free.length →
    st.busy.length = st.free.length →
    (∀ e ∈ es, 0 ≤ e.start ∧ e.start ≤ e.stop) →
    es.Pairwise (fun a b => a.start ≤ b.start) →
    (∀ k, k < st.free.length →
      st.free.getD k 0 = 0 ∨ ∃ p ∈ hist, p.2 = k ∧ p.1.stop = st.free.getD k 0) →
    (∀ i, i < es.length →
      countActiveP hist ((es.getD i default).start)
        + countActive (es.take i) ((es.getD i default).start) < st.free.length) →
    (∀ p ∈ (runPass st es).2, p.2 < st.free.length ∧ st.free.getD p.2 0 ≤ p.1.start)
    ∧ (runPass st es).2.Pairwise (fun p q => p.2 = q.2 → p.1.stop ≤ q.1.start)
    ∧ (∀ k, k < st.free.length →
        ((runPass st es).1).gaps.getD k 0 + ((runPass st es).1).busy.getD k 0
          = st.gaps.getD k 0 + st.busy.getD k 0
            + (((runPass st es).1).free.getD k 0 - st.free.getD k 0))
  | [], st, hist, _, _, _, _, _, _, _ => by
    refine ⟨by simp [runPass], by simp [runPass], fun k _ => by simp [runPass]⟩
  | e :: rest, st, hist, hne, hlg, hlb, hvalid, hsort, hfree, hconc => by
    have hfe := hvalid e (List.mem_cons_self e rest)
    have hkN : argminIdx st.free < st.free.length := argminIdx_lt_length st.free hne
    have hminle : st.free.getD (argminIdx st.free) 0 ≤ e.start := by
      apply min_free_le_of_count st.free hist e.start hfe.1 hfree
      have h0 := hconc 0 (by simp)
      simpa [countActive] using h0
    have hgap : max 0 (e.start - st.free.getD (argminIdx st.free) 0)
        = e.start - st.free.getD (argminIdx st.free) 0 :=
      max_eq_right (sub_nonneg.mpr hminle)
    set k := argminIdx st.free with hkdef
    set st' : PassState :=
      ⟨st.free.set k e.stop,
       st.gaps.set k (st.gaps.getD k 0 + max 0 (e.start - st.free.getD k 0)),
       st.busy.set k (st.busy.getD k 0 + (e.stop - e.start))⟩ with hst'
    have hrun : runPass st (e :: rest)
        = ((runPass st' rest).1, (e, k) :: (runPass st' rest).2) := rfl
    have hlen' : st'.free.length = st.free.length := by simp [hst']
    have hne2 : st'.free ≠ [] := by
      rw [← List.length_pos] at hne ⊢
      omega
    have hlg2 : st'.gaps.length = st'.free.length := by simp [hst', hlg]
    have hlb2 : st'.busy.length = st'.free.length := by simp [hst', hlb]
    have hvalid2 : ∀ e' ∈ rest, 0 ≤ e'.start ∧ e'.start ≤ e'.stop :=
      fun e' he' => hvalid e' (List.mem_cons_of_mem e he')
    have hpc := List.pairwise_cons.mp hsort
    have headLe : ∀ b ∈ rest, e.start ≤ b.start := hpc.1
    have hsort2 := hpc.2
    have hfree2 : ∀ k', k' < st'.free.length →
        st'.free.getD k' 0 = 0 ∨
          ∃ p ∈ (e, k) :: hist, p.2 = k' ∧ p.1.stop = st'.free.getD k' 0 := by
      intro k' hk'
      rw [hlen'] at hk'
      by_cases heq : k = k'
      · subst heq
        right
        refine ⟨(e, k), List.mem_cons_self _ _, rfl, ?_⟩
        exact (getD_set_self st.free k hkN e.stop).symm
      · have hsame : st'.free.getD k' 0 = st.free.getD k' 0 :=
          getD_set_ne st.free heq e.stop
        rw [hsame]
        rcases hfree k' hk' with h0 | ⟨p, hp, hpk, hstop⟩
        · exact Or.inl h0
        · exact Or.inr ⟨p, List.mem_cons_of_mem _ hp, hpk, hstop⟩
    have hconc2 : ∀ i, i < rest.length →
        countActiveP ((e, k) :: hist) ((rest.getD i default).start)
          + countActive (rest.take i) ((rest.getD i default).start)
            < st'.free.length := by
      intro i hi
      have h1 := hconc (i + 1) (by simpa using Nat.succ_lt_succ hi)
      rw [List.getD_cons_succ] at h1
      rw [List.take_succ_cons] at h1
      rw [countActive_cons] at h1
      rw [countActiveP_cons, hlen']
      have hred : ((e, k).1).stop = e.stop := rfl
      rw [hred]
      omega
    obtain ⟨IH1, IH2, IH3⟩ := runPass_spec rest st' ((e, k) :: hist)
      hne2 hlg2 hlb2 hvalid2 hsort2 hfree2 hconc2
    rw [hrun]
    refine ⟨?_, ?_, ?_⟩
    · intro p hp
      rcases List.mem_cons.mp hp with rfl | hp'
      · exact ⟨hkN, hminle⟩
      · have h1 := IH1 p hp'
        rw [hlen'] at h1
        refine ⟨h1.1, ?_⟩
        by_cases heq : k = p.2
        · have hmemrest : p.1 ∈ rest := by
            have := List.mem_map_of_mem Prod.fst hp'
            rwa [runPass_fst] at this
          calc st.free.getD p.2 0 = st.free.getD k 0 := by rw [heq]
            _ ≤ e.start := hminle
            _ ≤ p.1.start := headLe p.1 hmemrest
        · have hsame : st'.free.getD p.2 0 = st.free.getD p.2 0 :=
            getD_set_ne st.free heq e.stop
          rw [← hsame]
          exact h1.2
    · refine List.pairwise_cons.mpr ⟨?_, IH2⟩
      intro q hq hkq
      have h1 := IH1 q hq
      have hval : st'.free.getD q.2 0 = e.stop := by
        rw [← hkq]
        exact getD_set_self st.free k hkN e.stop
      calc (e, k).1.stop = st'.free.getD q.2 0 := hval.symm
        _ ≤ q.1.start := h1.2
    · intro k' hk'
      have h3 := IH3 k' (by rwa [hlen'])
      by_cases heq : k = k'
      · subst heq
        have hg : st'.gaps.getD k 0
            = st.gaps.getD k 0 + max 0 (e.start - st.free.getD k 0) :=
          getD_set_self st.gaps k (by rwa [hlg]) _
        have hb : st'.busy.getD k 0
            = st.busy.getD k 0 + (e.stop - e.start) :=
          getD_set_self st.busy k (by rwa [hlb]) _
        have hf : st'.free.getD k 0 = e.stop := getD_set_self st.free k hkN _
        rw [hg, hgap, hb, hf] at h3
        rw [h3]
        ring
      · have hg : st'.gaps.getD k' 0 = st.gaps.getD k' 0 :=
          getD_set_ne st.gaps heq _
        have hb : st'.busy.getD k' 0 = st.busy.getD k' 0 :=
          getD_set_ne st.busy heq _
        have hf : st'.free.getD k' 0 = st.free.getD k' 0 :=
          getD_set_ne st.free heq _
        rw [hg, hb, hf] at h3
        exact h3

/-- C1: For every simulated day, after the Day Orchestrator's post-pass (sort
completed ScannerEvents by start time, then greedily assign each to the scanner
whose next-free timestamp is earliest), no two ScannerEvents assigned to the
same scanner index have overlapping `[start, end)` intervals.  The hypotheses
state what holds of the completed events of a simulated day with `n` scanners:
starts are nonnegative and precede ends, the list has been sorted by start
time (the source sorts it immediately before the walk), and — because the
events record the hold intervals of a capacity-`n` resource — strictly fewer
than `n` earlier events are still active at each event's start. -/
theorem post_pass_scanner_exclusive (n : ℕ) (hn : 0 < n) (es : List ScanEvent)
    (hvalid : ∀ e ∈ es, 0 ≤ e.start ∧ e.start ≤ e.stop)
    (hsort : es.Pairwise (fun a b => a.start ≤ b.start))
    (hconc : ∀ i, i < es.length →
      countActive (es.take i) ((es.getD i default).start) < n) :
    (runPass (initState n) es).2.Pairwise
      (fun p q => p.2 = q.2 → p.1.stop ≤ q.1.start ∨ q.1.stop ≤ p.1.start) := by
  have hne : (initState n).free ≠ [] := by
    rw [← List.length_pos]
    simpa [initState] using hn
  have hfree : ∀ k, k < (initState n).free.length →
      (initState n).free.getD k 0 = 0 ∨
        ∃ p ∈ ([] : List (ScanEvent × ℕ)), p.2 = k ∧
          p.1.stop = (initState n).free.getD k 0 :=
    fun k _ => Or.inl (getD_replicate_zero n k)
  have hconc' : ∀ i, i < es.length →
      countActiveP [] ((es.getD i default).start)
        + countActive (es.take i) ((es.getD i default).start)
          < (initState n).free.length := by
    intro i hi
    simpa [countActiveP, initState] using hconc i hi
  obtain ⟨_, h2, _⟩ := runPass_spec es (initState n) [] hne
    (by simp [initState]) (by simp [initState]) hvalid hsort hfree hconc'
  exact h2.imp (fun h hpq => Or.inl (h hpq))

theorem post_pass_scanner_exclusive_witness :
    0 < 6
    ∧ (∀ e ∈ [(⟨0, 0, 10⟩ : ScanEvent), ⟨1, 5, 17⟩], 0 ≤ e.start ∧ e.start ≤ e.stop)
    ∧ ([(⟨0, 0, 10⟩ : ScanEvent), ⟨1, 5, 17⟩].Pairwise (fun a b => a.start ≤ b.start))
    ∧ (∀ i, i < ([(⟨0, 0, 10⟩ : ScanEvent), ⟨1, 5, 17⟩]).length →
        countActive (([(⟨0, 0, 10⟩ : ScanEvent), ⟨1, 5, 17⟩]).take i)
          ((([(⟨0, 0, 10⟩ : ScanEvent), ⟨1, 5, 17⟩]).getD i default).start) < 6)
    ∧ (runPass (initState 6) [⟨0, 0, 10⟩, ⟨1, 5, 17⟩]).2.Pairwise
        (fun p q => p.2 = q.2 → p.1.stop ≤ q.1.start ∨ q.1.stop ≤ p.1.start) :=
  ⟨by decide, by decide, by decide, by decide,
    post_pass_scanner_exclusive 6 (by decide) [⟨0, 0, 10⟩, ⟨1, 5, 17⟩]
      (by decide) (by decide) (by decide)⟩

/-- C4 counterexample: a day whose single completed exam starts at minute 1430
(23:50) and ends at minute 1442 — an entirely ordinary event, since the source
runs the day with a 4-hour buffer (`env.run(until=DAY_LENGTH_MIN + 240)`).
For its scanner, idle gaps + busy + trailing idle is 1442, not the day length
1440: the trailing term `max(0, 1440 - free)` clamps at 0 while the busy time
runs past the boundary, so the claimed conservation identity fails. -/
theorem idle_conservation_boundary_counterexample :
    (∀ e ∈ [(⟨0, 1430, 1442⟩ : ScanEvent)], 0 ≤ e.start ∧ e.start ≤ e.stop)
    ∧ (∀ i, i < ([(⟨0, 1430, 1442⟩ : ScanEvent)]).length →
        countActive (([(⟨0, 1430, 1442⟩ : ScanEvent)]).take i)
          ((([(⟨0, 1430, 1442⟩ : ScanEvent)]).getD i default).start) < 6)
    ∧ (runPass (initState 6) [⟨0, 1430, 1442⟩]).1.gaps.getD 0 0
        + (runPass (initState 6) [⟨0, 1430, 1442⟩]).1.busy.getD 0 0
        + max 0 (DAY_LENGTH_MIN - (runPass (initState 6) [⟨0, 1430, 1442⟩]).1.free.getD 0 0)
        ≠ DAY_LENGTH_MIN := by
  refine ⟨by decide, by decide, ?_⟩
  obtain ⟨-, -, h3⟩ := runPass_spec [⟨0, 1430, 1442⟩] (initState 6) []
    (by decide) (by decide) (by decide) (by decide) (by decide)
    (fun k _ => Or.inl (getD_replicate_zero 6 k)) (by decide)
  have h := h3 0 (by decide)
  have hg0 : (initState 6).gaps.getD 0 0 = 0 := getD_replicate_zero 6 0
  have hb0 : (initState 6).busy.getD 0 0 = 0 := getD_replicate_zero 6 0
  have hf0 : (initState 6).free.getD 0 0 = 0 := getD_replicate_zero 6 0
  rw [hg0, hb0, hf0] at h
  have hfree : (runPass (initState 6) [⟨0, 1430, 1442⟩]).1.free.getD 0 0 = 1442 := by
    decide
  rw [hfree] at h
  rw [hfree, h]
  have hmax : max 0 (DAY_LENGTH_MIN - 1442) = 0 := by
    rw [DAY_LENGTH_MIN]
    rw [max_eq_left (by norm_num)]
  rw [hmax, DAY_LENGTH_MIN]
  norm_num

/-- C4 (amended): for every completed simulated day and every scanner, the
idle-time accounting satisfies `gaps + busy + trailing idle =
max(day_length, that scanner's final next-free time)` exactly; it equals the
day length precisely when the scanner's schedule finishes inside the 24-hour
day, and exceeds it by the overhang when the last exam runs past midnight
into the buffer. -/
theorem idle_time_conservation (n : ℕ) (hn : 0 < n) (es : List ScanEvent)
    (hvalid : ∀ e ∈ es, 0 ≤ e.start ∧ e.start ≤ e.stop)
    (hsort : es.Pairwise (fun a b => a.start ≤ b.start))
    (hconc : ∀ i, i < es.length →
      countActive (es.take i) ((es.getD i default).start) < n) :
    ∀ k, k < n →
      (runPass (initState n) es).1.gaps.getD k 0
        + (runPass (initState n) es).1.busy.getD k 0
        + max 0 (DAY_LENGTH_MIN - (runPass (initState n) es).1.free.getD k 0)
      = max DAY_LENGTH_MIN ((runPass (initState n) es).1.free.getD k 0)
      ∧ ((runPass (initState n) es).1.free.getD k 0 ≤ DAY_LENGTH_MIN →
          (runPass (initState n) es).1.gaps.getD k 0
            + (runPass (initState n) es).1.busy.getD k 0
            + max 0 (DAY_LENGTH_MIN - (runPass (initState n) es).1.free.getD k 0)
          = DAY_LENGTH_MIN) := by
  have hne : (initState n).free ≠ [] := by
    rw [← List.length_pos]
    simpa [initState] using hn
  have hfree : ∀ k, k < (initState n).free.length →
      (initState n).free.getD k 0 = 0 ∨
        ∃ p ∈ ([] : List (ScanEvent × ℕ)), p.2 = k ∧
          p.1.stop = (initState n).free.getD k 0 :=
    fun k _ => Or.inl (getD_replicate_zero n k)
  have hconc' : ∀ i, i < es.length →
      countActiveP [] ((es.getD i default).start)
        + countActive (es.take i) ((es.getD i default).start)
          < (initState n).free.length := by
    intro i hi
    simpa [countActiveP, initState] using hconc i hi
  obtain ⟨_, _, h3⟩ := runPass_spec es (initState n) [] hne
    (by simp [initState]) (by simp [initState]) hvalid hsort hfree hconc'
  intro k hk
  have hk' : k < (initState n).free.length := by simpa [initState] using hk
  have hsum := h3 k hk'
  have hg0 : (initState n).gaps.getD k 0 = 0 := getD_replicate_zero n k
  have hb0 : (initState n).busy.getD k 0 = 0 := getD_replicate_zero n k
  have hf0 : (initState n).free.getD k 0 = 0 := getD_replicate_zero n k
  rw [hg0, hb0, hf0] at hsum
  set f := (runPass (initState n) es).1.free.getD k 0 with hf
  have hgb : (runPass (initState n) es).1.gaps.getD k 0
      + (runPass (initState n) es).1.busy.getD k 0 = f := by
    rw [hsum]; ring
  constructor
  · rw [hgb]
    rcases le_total f DAY_LENGTH_MIN with h | h
    · rw [max_eq_right (sub_nonneg.mpr h), max_eq_left h]
      ring
    · rw [max_eq_left (by linarith), max_eq_right h]
      ring
  · intro hle
    rw [hgb, max_eq_right (sub_nonneg.mpr hle)]
    ring

theorem idle_time_conservation_witness :
    0 < 6
    ∧ (∀ e ∈ [(⟨0, 0, 10⟩ : ScanEvent), ⟨1, 5, 16⟩], 0 ≤ e.start ∧ e.start ≤ e.stop)
    ∧ ([(⟨0, 0, 10⟩ : ScanEvent), ⟨1, 5, 16⟩].Pairwise (fun a b => a.start ≤ b.start))
    ∧ (∀ i, i < ([(⟨0, 0, 10⟩ : ScanEvent), ⟨1, 5, 16⟩]).length →
        countActive (([(⟨0, 0, 10⟩ : ScanEvent), ⟨1, 5, 16⟩]).take i)
          ((([(⟨0, 0, 10⟩ : ScanEvent), ⟨1, 5, 16⟩]).getD i default).start) < 6)
    ∧ 0 < 6
    ∧ (∀ k, k < 6 →
        (runPass (initState 6) [⟨0, 0, 10⟩, ⟨1, 5, 16⟩]).1.gaps.getD k 0
          + (runPass (initState 6) [⟨0, 0, 10⟩, ⟨1, 5, 16⟩]).1.busy.getD k 0
          + max 0 (DAY_LENGTH_MIN - (runPass (initState 6) [⟨0, 0, 10⟩, ⟨1, 5, 16⟩]).1.free.getD k 0)
        = max DAY_LENGTH_MIN ((runPass (initState 6) [⟨0, 0, 10⟩, ⟨1, 5, 16⟩]).1.free.getD k 0)
        ∧ ((runPass (initState 6) [⟨0, 0, 10⟩, ⟨1, 5, 16⟩]).1.free.getD k 0 ≤ DAY_LENGTH_MIN →
            (runPass (initState 6) [⟨0, 0, 10⟩, ⟨1, 5, 16⟩]).1.gaps.getD k 0
              + (runPass (initState 6) [⟨0, 0, 10⟩, ⟨1, 5, 16⟩]).1.busy.getD k 0
              + max 0 (DAY_LENGTH_MIN - (runPass (initState 6) [⟨0, 0, 10⟩, ⟨1, 5, 16⟩]).1.free.getD k 0)
            = DAY_LENGTH_MIN)) :=
  ⟨by decide, by decide, by decide, by decide, by decide,
    idle_time_conservation 6 (by decide) [⟨0, 0, 10⟩, ⟨1, 5, 16⟩]
      (by decide) (by decide) (by decide)⟩

theorem hourFraction_pos (h : ℕ) : 0 < hourFraction h := by
  unfold hourFraction
  split_ifs <;> norm_num

theorem detHourTimes_length (hour count : ℕ) : (detHourTimes hour count).length = count := by
  unfold detHourTimes
  rw [List.length_map, List.length_range]

/-- Carry telescoping: over any block of hours, the emitted integer counts plus
the final carry add up exactly to `carry + daily * (sum of the fractions)`,
with the carry always in `[0, 1)`. -/
theorem detArrivalsGo_length (daily : ℚ) (hd : 0 ≤ daily) :
    ∀ (rem hour : ℕ) (carry : ℚ), 0 ≤ carry → carry < 1 →
    ∃ c, 0 ≤ c ∧ c < 1 ∧
      ((detArrivalsGo daily rem hour carry).length : ℚ) + c
        = carry + daily * (∑ i in Finset.range rem, hourFraction (hour + i))
  | 0, hour, carry, h0, h1 => ⟨carry, h0, h1, by simp [detArrivalsGo]⟩
  | rem + 1, hour, carry, h0, h1 => by
    have hexp : 0 ≤ daily * hourFraction hour :=
      mul_nonneg hd (le_of_lt (hourFraction_pos hour))
    have hx : 0 ≤ daily * hourFraction hour + carry := by linarith
    have hcount : (((⌊daily * hourFraction hour + carry⌋).toNat : ℕ) : ℚ)
        = ⌊daily * hourFraction hour + carry⌋ := by
      exact_mod_cast Int.toNat_of_nonneg (Int.floor_nonneg.mpr hx)
    have hc0' : 0 ≤ daily * hourFraction hour + carry
        - (((⌊daily * hourFraction hour + carry⌋).toNat : ℕ) : ℚ) := by
      rw [hcount]
      exact Int.fract_nonneg _
    have hc1' : daily * hourFraction hour + carry
        - (((⌊daily * hourFraction hour + carry⌋).toNat : ℕ) : ℚ) < 1 := by
      rw [hcount]
      exact Int.fract_lt_one _
    obtain ⟨c, hc0, hc1, hsum⟩ := detArrivalsGo_length daily hd rem (hour + 1)
      (daily * hourFraction hour + carry
        - (((⌊daily * hourFraction hour + carry⌋).toNat : ℕ) : ℚ)) hc0' hc1'
    refine ⟨c, hc0, hc1, ?_⟩
    have hlen : (detArrivalsGo daily (rem + 1) hour carry).length
        = (⌊daily * hourFraction hour + carry⌋).toNat
          + (detArrivalsGo daily rem (hour + 1)
              (daily * hourFraction hour + carry
                - (((⌊daily * hourFraction hour + carry⌋).toNat : ℕ) : ℚ))).length := by
      simp [detArrivalsGo, detHourTimes_length]
    have hsplit : (∑ i in Finset.range (rem + 1), hourFraction (hour + i))
        = (∑ i in Finset.range rem, hourFraction (hour + 1 + i)) + hourFraction hour := by
      rw [Finset.sum_range_succ' (fun i => hourFraction (hour + i)) rem]
      simp only [Nat.add_zero]
      congr 1
      exact Finset.sum_congr rfl (fun i _ => by congr 1; omega)
    have hmul : daily * (∑ i in Finset.range (rem + 1), hourFraction (hour + i))
        = daily * (∑ i in Finset.range rem, hourFraction (hour + 1 + i))
          + daily * hourFraction hour := by
      rw [hsplit]; ring
    rw [hlen, Nat.cast_add, hcount, hmul]
    rw [hcount] at hsum
    linarith [hsum]

/-- The 24 hour-fractions sum to exactly one (12·(0.70/12) + 4·(0.20/4) +
8·(0.10/8)). -/
theorem hourFraction_sum : (∑ i in Finset.range 24, hourFraction i) = 1 := by
  norm_num [Finset.sum_range_succ, hourFraction]

/-- C5 (amended): in deterministic mode the total arrival count over the
24-hour day equals `⌊daily_patients⌋` — the floor, not the round, of the
daily figure: the floor-with-carry accumulation never loses a whole patient
but also never rounds up, so a fractional daily figure loses its fractional
part. -/
theorem det_arrival_total_floor (daily : ℚ) (hd : 0 ≤ daily) :
    ((detArrivals daily).length : ℤ) = ⌊daily⌋ := by
  obtain ⟨c, hc0, hc1, hsum⟩ := detArrivalsGo_length daily hd 24 0 0 le_rfl (by norm_num)
  have hz : (∑ i in Finset.range 24, hourFraction (0 + i))
      = (∑ i in Finset.range 24, hourFraction i) :=
    Finset.sum_congr rfl (fun i _ => by rw [Nat.zero_add])
  rw [hz, hourFraction_sum, mul_one, zero_add] at hsum
  have hL : (detArrivals daily).length = (detArrivalsGo daily 24 0 0).length := rfl
  symm
  rw [Int.floor_eq_iff]
  constructor
  · have h1 : ((detArrivals daily).length : ℚ) ≤ daily := by
      rw [hL]; linarith
    exact_mod_cast h1
  · have h2 : daily < ((detArrivals daily).length : ℚ) + 1 := by
      rw [hL]; linarith
    exact_mod_cast h2

theorem det_arrival_total_floor_witness :
    0 ≤ (5/2 : ℚ) ∧ ((detArrivals (5/2 : ℚ)).length : ℤ) = ⌊(5/2 : ℚ)⌋ :=
  ⟨by norm_num, det_arrival_total_floor (5/2) (by norm_num)⟩

/-- C5 counterexample: with `daily_patients = 25.9` (a perfectly ordinary
workflow-derived figure), deterministic mode produces 25 arrivals while
`round(25.9) = 26`: the carry accumulation floors the daily total instead of
rounding it. -/
theorem det_arrival_total_not_round :
    ((detArrivals (259/10 : ℚ)).length : ℤ) ≠ round ((259 : ℚ)/10) := by
  obtain ⟨c, hc0, hc1, hsum⟩ :=
    detArrivalsGo_length (259/10) (by norm_num) 24 0 0 le_rfl (by norm_num)
  have hz : (∑ i in Finset.range 24, hourFraction (0 + i))
      = (∑ i in Finset.range 24, hourFraction i) :=
    Finset.sum_congr rfl (fun i _ => by rw [Nat.zero_add])
  rw [hz, hourFraction_sum, mul_one, zero_add] at hsum
  have hL : (detArrivals (259/10 : ℚ)).length
      = (detArrivalsGo (259/10) 24 0 0).length := rfl
  have h3 : ((detArrivals (259/10 : ℚ)).length : ℚ) < 26 := by rw [hL]; linarith
  have h4 : (24 : ℚ) < ((detArrivals (259/10 : ℚ)).length : ℚ) := by rw [hL]; linarith
  have h5 : (detArrivals (259/10 : ℚ)).length < 26 := by exact_mod_cast h3
  have h6 : 24 < (detArrivals (259/10 : ℚ)).length := by exact_mod_cast h4
  have hL25 : (detArrivals (259/10 : ℚ)).length = 25 := by omega
  have hround : round ((259 : ℚ)/10) = 26 := by
    rw [round_eq]
    have hval : (259 : ℚ)/10 + 1/2 = 132/5 := by norm_num
    rw [hval]
    have : ⌊(132/5 : ℚ)⌋ = 26 := by
      rw [Int.floor_eq_iff]
      norm_num
    exact this
  rw [hL25, hround]
  norm_num

/-! ### Sortedness and range of the generated arrivals (C6) -/

theorem detHourTimes_mem (hour count : ℕ) :
    ∀ x ∈ detHourTimes hour count,
      (hour : ℚ) * 60 ≤ x ∧ x < ((hour : ℚ) + 1) * 60 := by
  intro x hx
  simp only [detHourTimes, List.mem_map, List.mem_range] at hx
  obtain ⟨i, hi, rfl⟩ := hx
  have hcpos : (0:ℚ) < (count : ℚ) + 1 := by positivity
  have hspos : (0:ℚ) < 60 / ((count : ℚ) + 1) := by positivity
  have hipos : (0:ℚ) < (i : ℚ) + 1 := by positivity
  constructor
  · nlinarith
  · have hlt : ((i : ℚ) + 1) < (count : ℚ) + 1 := by
      have : (i : ℚ) < count := by exact_mod_cast hi
      linarith
    have hmul : (60 / ((count : ℚ) + 1)) * ((i : ℚ) + 1)
        < (60 / ((count : ℚ) + 1)) * ((count : ℚ) + 1) :=
      mul_lt_mul_of_pos_left hlt hspos
    have h60 : (60 / ((count : ℚ) + 1)) * ((count : ℚ) + 1) = 60 :=
      div_mul_cancel₀ 60 (ne_of_gt hcpos)
    linarith

theorem detHourTimes_sorted (hour count : ℕ) :
    (detHourTimes hour count).Pairwise (· ≤ ·) := by
  unfold detHourTimes
  refine List.Pairwise.map _ ?_ (List.pairwise_lt_range count)
  intro a b hab
  have hsp : (0:ℚ) ≤ 60 / ((count : ℚ) + 1) := by positivity
  have hcast : ((a:ℚ) + 1) ≤ ((b:ℚ) + 1) := by
    have : (a:ℚ) ≤ b := by exact_mod_cast le_of_lt hab
    linarith
  have := mul_le_mul_of_nonneg_left hcast hsp
  linarith

theorem stochHourGo_mem (hourEnd : ℚ) :
    ∀ (ds : List ℚ) (cur : ℚ), (∀ d ∈ ds, 0 ≤ d) →
      ∀ x ∈ stochHourGo hourEnd cur ds, cur ≤ x ∧ x < hourEnd
  | [], cur, _, x, hx => by simp [stochHourGo] at hx
  | d :: rest, cur, hds, x, hx => by
    have hd0 : 0 ≤ d := hds d (List.mem_cons_self d rest)
    have hrest : ∀ d' ∈ rest, 0 ≤ d' := fun d' h => hds d' (List.mem_cons_of_mem d h)
    simp only [stochHourGo] at hx
    split at hx
    · rename_i hlt
      rcases List.mem_cons.mp hx with rfl | hx'
      · exact ⟨by linarith, hlt⟩
      · have h := stochHourGo_mem hourEnd rest (cur + d) hrest x hx'
        exact ⟨by linarith [h.1], h.2⟩
    · simp at hx

theorem stochHourGo_sorted (hourEnd : ℚ) :
    ∀ (ds : List ℚ) (cur : ℚ), (∀ d ∈ ds, 0 ≤ d) →
      (stochHourGo hourEnd cur ds).Pairwise (· ≤ ·)
  | [], cur, _ => by simp [stochHourGo]
  | d :: rest, cur, hds => by
    have hrest : ∀ d' ∈ rest, 0 ≤ d' := fun d' h => hds d' (List.mem_cons_of_mem d h)
    simp only [stochHourGo]
    split
    · refine List.pairwise_cons.mpr ⟨?_, stochHourGo_sorted hourEnd rest (cur + d) hrest⟩
      intro y hy
      exact (stochHourGo_mem hourEnd rest (cur + d) hrest y hy).1
    · exact List.Pairwise.nil

theorem detArrivalsGo_sorted_mem (daily : ℚ) :
    ∀ (rem hour : ℕ) (carry : ℚ),
      (detArrivalsGo daily rem hour carry).Pairwise (· ≤ ·)
      ∧ (∀ x ∈ detArrivalsGo daily rem hour carry,
          (hour : ℚ) * 60 ≤ x ∧ x < ((hour : ℚ) + (rem : ℚ)) * 60)
  | 0, hour, carry => by simp [detArrivalsGo]
  | rem + 1, hour, carry => by
    have heq : detArrivalsGo daily (rem + 1) hour carry
        = detHourTimes hour ((⌊daily * hourFraction hour + carry⌋).toNat)
          ++ detArrivalsGo daily rem (hour + 1)
              (daily * hourFraction hour + carry
                - (((⌊daily * hourFraction hour + carry⌋).toNat : ℕ) : ℚ)) := rfl
    obtain ⟨ihS, ihM⟩ := detArrivalsGo_sorted_mem daily rem (hour + 1)
      (daily * hourFraction hour + carry
        - (((⌊daily * hourFraction hour + carry⌋).toNat : ℕ) : ℚ))
    rw [heq]
    have hremnn : (0:ℚ) ≤ (rem : ℚ) := Nat.cast_nonneg rem
    constructor
    · rw [List.pairwise_append]
      refine ⟨detHourTimes_sorted _ _, ihS, ?_⟩
      intro x hx y hy
      have hxm := detHourTimes_mem _ _ x hx
      have hym := (ihM y hy).1
      push_cast at hym
      linarith [hxm.2]
    · intro x hx
      rcases List.mem_append.mp hx with hx1 | hx2
      · have h := detHourTimes_mem _ _ x hx1
        refine ⟨h.1, ?_⟩
        push_cast
        linarith [h.2]
      · have h1 := (ihM x hx2).1
        have h2 := (ihM x hx2).2
        push_cast at h1 h2
        push_cast
        constructor
        · linarith
        · linarith

theorem stochArrivalsGo_sorted_mem (daily : ℚ) (draws : ℕ → List ℚ)
    (hdraws : ∀ h, ∀ d ∈ draws h, 0 ≤ d) :
    ∀ (rem hour : ℕ),
      (stochArrivalsGo daily draws rem hour).Pairwise (· ≤ ·)
      ∧ (∀ x ∈ stochArrivalsGo daily draws rem hour,
          (hour : ℚ) * 60 ≤ x ∧ x < ((hour : ℚ) + (rem : ℚ)) * 60)
  | 0, hour => by simp [stochArrivalsGo]
  | rem + 1, hour => by
    obtain ⟨ihS, ihM⟩ := stochArrivalsGo_sorted_mem daily draws hdraws rem (hour + 1)
    have hblockS : (if 0 < daily * hourFraction hour
        then stochHourGo (((hour : ℚ) + 1) * 60) ((hour : ℚ) * 60) (draws hour)
        else []).Pairwise (· ≤ ·) := by
      split
      · exact stochHourGo_sorted _ _ _ (hdraws hour)
      · exact List.Pairwise.nil
    have hblockM : ∀ x ∈ (if 0 < daily * hourFraction hour
        then stochHourGo (((hour : ℚ) + 1) * 60) ((hour : ℚ) * 60) (draws hour)
        else []), (hour : ℚ) * 60 ≤ x ∧ x < ((hour : ℚ) + 1) * 60 := by
      split
      · exact fun x hx => stochHourGo_mem _ _ _ (hdraws hour) x hx
      · intro x hx
        simp at hx
    have heq : stochArrivalsGo daily draws (rem + 1) hour
        = (if 0 < daily * hourFraction hour
            then stochHourGo (((hour : ℚ) + 1) * 60) ((hour : ℚ) * 60) (draws hour)
            else [])
          ++ stochArrivalsGo daily draws rem (hour + 1) := rfl
    rw [heq]
    have hremnn : (0:ℚ) ≤ (rem : ℚ) := Nat.cast_nonneg rem
    constructor
    · rw [List.pairwise_append]
      refine ⟨hblockS, ihS, ?_⟩
      intro x hx y hy
      have hxm := hblockM x hx
      have hym := (ihM y hy).1
      push_cast at hym
      linarith [hxm.2]
    · intro x hx
      rcases List.mem_append.mp hx with hx1 | hx2
      · have h := hblockM x hx1
        refine ⟨h.1, ?_⟩
        push_cast
        linarith [h.2]
      · have h1 := (ihM x hx2).1
        have h2 := (ihM x hx2).2
        push_cast at h1 h2
        push_cast
        constructor
        · linarith
        · linarith

/-- C6: in both deterministic and stochastic mode, the arrival generator
returns a sequence of timestamps sorted in ascending order with every element
in `[0, 1440)`: each hour's arrivals fall inside that hour's minute interval
`[60h, 60(h+1))`, so the concatenation of the 24 hourly blocks is sorted and
in range.  The stochastic mode is quantified over all possible non-negative
exponential inter-arrival draws. -/
theorem generate_arrivals_sorted_in_range (daily : ℚ) (draws : ℕ → List ℚ)
    (hdraws : ∀ h, ∀ d ∈ draws h, 0 ≤ d) :
    ((detArrivals daily).Pairwise (· ≤ ·)
      ∧ ∀ x ∈ detArrivals daily, 0 ≤ x ∧ x < 1440)
    ∧ ((stochArrivals daily draws).Pairwise (· ≤ ·)
      ∧ ∀ x ∈ stochArrivals daily draws, 0 ≤ x ∧ x < 1440) := by
  obtain ⟨hdS, hdM⟩ := detArrivalsGo_sorted_mem daily 24 0 0
  obtain ⟨hsS, hsM⟩ := stochArrivalsGo_sorted_mem daily draws hdraws 24 0
  refine ⟨⟨hdS, ?_⟩, ⟨hsS, ?_⟩⟩
  · intro x hx
    have h := hdM x hx
    push_cast at h
    constructor
    · linarith [h.1]
    · linarith [h.2]
  · intro x hx
    have h := hsM x hx
    push_cast at h
    constructor
    · linarith [h.1]
    · linarith [h.2]

theorem generate_arrivals_sorted_in_range_witness :
    (∀ h : ℕ, ∀ d ∈ (fun _ : ℕ => [(7:ℚ), 9]) h, 0 ≤ d)
    ∧ (((detArrivals 25).Pairwise (· ≤ ·)
        ∧ ∀ x ∈ detArrivals 25, 0 ≤ x ∧ x < 1440)
      ∧ ((stochArrivals 25 (fun _ : ℕ => [(7:ℚ), 9])).Pairwise (· ≤ ·)
        ∧ ∀ x ∈ stochArrivals 25 (fun _ : ℕ => [(7:ℚ), 9]), 0 ≤ x ∧ x < 1440)) :=
  ⟨fun _ => show ∀ d ∈ [(7:ℚ), 9], 0 ≤ d by decide,
    generate_arrivals_sorted_in_range 25 (fun _ : ℕ => [(7:ℚ), 9])
      (fun _ => show ∀ d ∈ [(7:ℚ), 9], 0 ≤ d by decide)⟩

theorem theoretical_total_baseline_v13 :
    DesV13.get_theoretical_total .baseline = 1195/10 := by
  have hsum : ((DesCurrent.STEP_ORDER.map
      (fun st => DesV13.STEP_MEANS st .baseline)).sum : ℚ) = 11951/100 := by
    simp only [DesCurrent.STEP_ORDER, DesV13.STEP_MEANS, List.map_cons,
      List.map_nil, List.sum_cons, List.sum_nil]
    norm_num
  unfold DesV13.get_theoretical_total DesCurrent.pyRound1
  rw [hsum]
  have hround : round ((10 : ℚ) * (11951/100)) = 1195 := by
    rw [round_eq]
    have hval : (10 : ℚ) * (11951/100) + 1/2 = 11956/10 := by norm_num
    rw [hval]
    have : ⌊(11956/10 : ℚ)⌋ = 1195 := by
      rw [Int.floor_eq_iff]
      norm_num
    exact this
  rw [hround]
  norm_num

namespace DesCurrent

theorem theoretical_total_baseline : get_theoretical_total .baseline = 1195/10 := by
  have hsum : ((STEP_ORDER.map (fun st => STEP_MEANS st .baseline)).sum : ℚ)
      = 11951/100 := by
    simp only [STEP_ORDER, STEP_MEANS, List.map_cons, List.map_nil, List.sum_cons,
      List.sum_nil]
    norm_num
  unfold get_theoretical_total pyRound1
  rw [hsum]
  have hround : round ((10 : ℚ) * (11951/100)) = 1195 := by
    rw [round_eq]
    have hval : (10 : ℚ) * (11951/100) + 1/2 = 11956/10 := by norm_num
    rw [hval]
    have : ⌊(11956/10 : ℚ)⌋ = 1195 := by
      rw [Int.floor_eq_iff]
      norm_num
    exact this
  rw [hround]
  norm_num

/-- C8: in both variants, for every improvement (non-baseline) scenario the
daily patient count used by the arrival generator equals the minimum of
(a) the baseline daily figure plus (theoretical improved capacity minus
baseline) times the booking-conversion factor and (b) the physical scanner
ceiling `minutes_per_day * scanner_count / average_scan_duration`; for the
baseline scenario it equals the fixed calibration constant (25 in the current
variant, 150 in v1.3, whose low-acuity factor is 1.0). -/
theorem daily_patients_formula :
    ((∀ scen : Scenario, scen ≠ .baseline →
      daily_patients scen
        = min (baseline_daily_capacity
            + (theoretical_improved_capacity scen - baseline_daily_capacity)
              * BOOKING_CONVERSION)
            max_scanner_capacity)
    ∧ daily_patients .baseline = 25)
    ∧ ((∀ scen : DesV13.Scenario, scen ≠ .baseline →
      DesV13.daily_patients scen
        = min (DesV13.baseline_daily_capacity
            + (DesV13.theoretical_improved_capacity scen
                - DesV13.baseline_daily_capacity)
              * DesV13.BOOKING_CONVERSION)
            DesV13.MAX_SCANNER_CAPACITY)
    ∧ DesV13.daily_patients .baseline = 150) := by
  have hguard : (0 : ℚ) < get_theoretical_total .baseline - 2743/100 - 1211/100 := by
    rw [theoretical_total_baseline]
    norm_num
  have hguard13 : (0 : ℚ)
      < DesV13.get_theoretical_total .baseline - 2743/100 - 1211/100 := by
    rw [theoretical_total_baseline_v13]
    norm_num
  have hone : DesV13.LOW_ACUITY_FRACTION = 1 := rfl
  refine ⟨⟨?_, ?_⟩, ?_, ?_⟩
  · intro scen hs
    cases scen with
    | baseline => exact absurd rfl hs
    | rovis_only =>
      show (if Scenario.rovis_only = Scenario.baseline then baseline_daily_capacity
        else _) = _
      rw [if_neg (by simp)]
      simp only [if_pos hguard]
      rfl
    | rovis_workflow =>
      show (if Scenario.rovis_workflow = Scenario.baseline then baseline_daily_capacity
        else _) = _
      rw [if_neg (by simp)]
      simp only [if_pos hguard]
      rfl
  · show (if Scenario.baseline = Scenario.baseline then baseline_daily_capacity
      else _) = 25
    rw [if_pos rfl]
    rfl
  · intro scen hs
    cases scen with
    | baseline => exact absurd rfl hs
    | rovis_only =>
      show (if DesV13.Scenario.rovis_only = DesV13.Scenario.baseline
          then DesV13.baseline_daily_capacity else _)
        * DesV13.LOW_ACUITY_FRACTION = _
      rw [if_neg (by simp)]
      simp only [if_pos hguard13]
      rw [hone, mul_one]
      rfl
    | rovis_workflow =>
      show (if DesV13.Scenario.rovis_workflow = DesV13.Scenario.baseline
          then DesV13.baseline_daily_capacity else _)
        * DesV13.LOW_ACUITY_FRACTION = _
      rw [if_neg (by simp)]
      simp only [if_pos hguard13]
      rw [hone, mul_one]
      rfl
    | wf_only =>
      show (if DesV13.Scenario.wf_only = DesV13.Scenario.baseline
          then DesV13.baseline_daily_capacity else _)
        * DesV13.LOW_ACUITY_FRACTION = _
      rw [if_neg (by simp)]
      simp only [if_pos hguard13]
      rw [hone, mul_one]
      rfl
  · show (if DesV13.Scenario.baseline = DesV13.Scenario.baseline
        then DesV13.baseline_daily_capacity else _)
      * DesV13.LOW_ACUITY_FRACTION = 150
    rw [if_pos rfl, hone, mul_one]
    rfl

theorem daily_patients_formula_witness :
    Scenario.rovis_only ≠ Scenario.baseline
    ∧ daily_patients .rovis_only
      = min (baseline_daily_capacity
          + (theoretical_improved_capacity .rovis_only - baseline_daily_capacity)
            * BOOKING_CONVERSION)
          max_scanner_capacity :=
  ⟨by simp, daily_patients_formula.1.1 .rovis_only (by simp)⟩

/-- C7: after a patient acquires a robot, a single Bernoulli draw with success
probability `ROBOT_UPTIME` decides the occupancy — on success stages
B1+B2+B3+C1 from the scenario's improved means plus a repositioning draw, on
failure the same stage sequence from baseline means plus a repositioning
draw; the robot is released only when this occupancy completes, and the
scanner-prep step C2 elapses after the release without holding the robot. -/
theorem robot_occupancy_spec (scheduled stepA w u : ℚ) (D : Step → Scenario → ℚ)
    (repo c2 : ℚ) (scen : Scenario) :
    ((simulate_one_patient_robot_phase scheduled stepA w u D repo c2 scen).robot_time
      = if u < ROBOT_UPTIME
          then D .B1 scen + D .B2 scen + D .B3 scen + D .C1 scen + repo
          else D .B1 .baseline + D .B2 .baseline + D .B3 .baseline
            + D .C1 .baseline + repo)
    ∧ (simulate_one_patient_robot_phase scheduled stepA w u D repo c2 scen).robot_release_time
      = (simulate_one_patient_robot_phase scheduled stepA w u D repo c2 scen).time_when_robot_available
        + (simulate_one_patient_robot_phase scheduled stepA w u D repo c2 scen).robot_time
    ∧ (simulate_one_patient_robot_phase scheduled stepA w u D repo c2 scen).scanner_request_time
      = (simulate_one_patient_robot_phase scheduled stepA w u D repo c2 scen).robot_release_time
        + c2
    ∧ (0 ≤ c2 →
        (simulate_one_patient_robot_phase scheduled stepA w u D repo c2 scen).robot_release_time
          ≤ (simulate_one_patient_robot_phase scheduled stepA w u D repo c2 scen).scanner_request_time) := by
  refine ⟨rfl, rfl, rfl, ?_⟩
  intro h
  show scheduled + stepA + w + _ ≤ scheduled + stepA + w + _ + c2
  linarith

theorem robot_occupancy_spec_witness :
    ((simulate_one_patient_robot_phase 0 1 2 (1/2) (fun _ _ => 3) 4 5 .rovis_only).robot_time
      = if (1/2 : ℚ) < ROBOT_UPTIME
          then (3 : ℚ) + 3 + 3 + 3 + 4
          else (3 : ℚ) + 3 + 3 + 3 + 4)
    ∧ (simulate_one_patient_robot_phase 0 1 2 (1/2) (fun _ _ => 3) 4 5 .rovis_only).robot_release_time
      = (simulate_one_patient_robot_phase 0 1 2 (1/2) (fun _ _ => 3) 4 5 .rovis_only).time_when_robot_available
        + (simulate_one_patient_robot_phase 0 1 2 (1/2) (fun _ _ => 3) 4 5 .rovis_only).robot_time
    ∧ (simulate_one_patient_robot_phase 0 1 2 (1/2) (fun _ _ => 3) 4 5 .rovis_only).scanner_request_time
      = (simulate_one_patient_robot_phase 0 1 2 (1/2) (fun _ _ => 3) 4 5 .rovis_only).robot_release_time
        + 5
    ∧ (0 ≤ (5:ℚ) →
        (simulate_one_patient_robot_phase 0 1 2 (1/2) (fun _ _ => 3) 4 5 .rovis_only).robot_release_time
          ≤ (simulate_one_patient_robot_phase 0 1 2 (1/2) (fun _ _ => 3) 4 5 .rovis_only).scanner_request_time) :=
  robot_occupancy_spec 0 1 2 (1/2) (fun _ _ => 3) 4 5 .rovis_only

theorem day_robot_waits_baseline :
    ∀ ws : List ℚ, day_robot_waits .baseline ws = some []
  | [] => rfl
  | w :: ws => by
    simp only [day_robot_waits, patient_robot_waits, robots_pool, if_pos rfl,
      reduceIte]
    rw [day_robot_waits_baseline ws]
    rfl

end DesCurrent

namespace DesV13

theorem day_robot_waits_manual (scen : Scenario) (hm : is_manual scen = true) :
    ∀ ws : List ℚ, day_robot_waits scen ws = some []
  | [] => rfl
  | w :: ws => by
    simp only [day_robot_waits, patient_robot_waits, robots_pool, hm, reduceIte]
    rw [day_robot_waits_manual scen hm ws]
    rfl

end DesV13

/-- C2 counterexample: in `ct_scan_shands_des_current.py` a patient whose exam
draw is 12 minutes holds the scanner for exactly 12 minutes — the exam
duration alone, not `exam_duration + fixed_turnover_minutes`: that file has no
turnover constant, and its ScannerEvent ends at `start + exam_time`. -/
theorem scanner_hold_counterexample :
    (DesCurrent.simulate_one_patient_scan_phase 100 0 12).release_time
        - (DesCurrent.simulate_one_patient_scan_phase 100 0 12).time_when_ct_starts
      = 12
    ∧ ((12 : ℚ) ≠ 12 + DesV13.TURNOVER_MINUTES) := by
  constructor
  · show (100 : ℚ) + 0 + 12 - (100 + 0) = 12
    norm_num
  · rw [DesV13.TURNOVER_MINUTES]
    norm_num

/-- C2 (amended): in the v1.3 variant every patient that acquires a scanner
holds it for `exam_duration + TURNOVER_MINUTES`, the emitted ScannerEvent ends
at `start` plus that full hold, and the scanner is released only when the
hold elapses (strictly after the exam alone, since the turnover is positive);
in the `des_current` variant the hold and the event's end cover the exam
duration alone. -/
theorem scanner_hold_spec (reqT w exam : ℚ) :
    ((DesV13.simulate_one_patient_scan_phase reqT w exam).event_end
      = (DesV13.simulate_one_patient_scan_phase reqT w exam).event_start
        + (exam + DesV13.TURNOVER_MINUTES))
    ∧ ((DesV13.simulate_one_patient_scan_phase reqT w exam).release_time
      = (DesV13.simulate_one_patient_scan_phase reqT w exam).event_end)
    ∧ ((DesV13.simulate_one_patient_scan_phase reqT w exam).event_start + exam
      < (DesV13.simulate_one_patient_scan_phase reqT w exam).release_time)
    ∧ ((DesCurrent.simulate_one_patient_scan_phase reqT w exam).event_end
      = (DesCurrent.simulate_one_patient_scan_phase reqT w exam).event_start + exam)
    ∧ ((DesCurrent.simulate_one_patient_scan_phase reqT w exam).release_time
      = (DesCurrent.simulate_one_patient_scan_phase reqT w exam).event_end) := by
  refine ⟨rfl, rfl, ?_, rfl, rfl⟩
  show reqT + w + exam < reqT + w + (exam + DesV13.TURNOVER_MINUTES)
  rw [DesV13.TURNOVER_MINUTES]
  linarith

/-- C10: in the baseline scenario of the current variant, and in the baseline
and workflow-only scenarios of the v1.3 variant, the Day Orchestrator never
creates a robot pool (the handle is `None`) and the patient process never
issues a robot request, so the `None` handle is never dereferenced and the
DayResult's robot-wait list is always empty. -/
theorem baseline_no_robot (ws : List ℚ) :
    (DesCurrent.robots_pool .baseline = none
      ∧ DesCurrent.day_robot_waits .baseline ws = some [])
    ∧ (DesV13.robots_pool .baseline = none
      ∧ DesV13.day_robot_waits .baseline ws = some []
      ∧ DesV13.robots_pool .wf_only = none
      ∧ DesV13.day_robot_waits .wf_only ws = some []) :=
  ⟨⟨rfl, DesCurrent.day_robot_waits_baseline ws⟩,
    ⟨rfl, DesV13.day_robot_waits_manual DesV13.Scenario.baseline (by rfl) ws,
      rfl, DesV13.day_robot_waits_manual DesV13.Scenario.wf_only (by rfl) ws⟩⟩

/-- C9 counterexample: a scenario configuration whose variability table lacks
the entry for step P is not rejected at setup — the draw proceeds normally
with the silently substituted default 0.3, exactly the behaviour the claim
says must not happen. -/
theorem config_validation_counterexample :
    get_step_duration_checked [("P", [("baseline", 2743/100)])] [] "P" "baseline"
      = Except.ok (2743/100, 3/10) := by
  have h1 : dictFind [("P", [("baseline", (2743:ℚ)/100)])] "P"
      = some [("baseline", (2743:ℚ)/100)] := rfl
  have h2 : dictFind [("baseline", (2743:ℚ)/100)] "baseline" = some (2743/100) := rfl
  have h3 : dictFind ([] : List (String × ℚ)) "P" = none := rfl
  simp only [get_step_duration_checked, h1, h2, dictGetD, h3]
  rw [if_neg (by norm_num : ¬ (2743:ℚ)/100 ≤ 0)]

/-- C9 (amended): the program performs no setup-time configuration
validation.  A missing variability entry is silently defaulted to 0.3 and the
draw succeeds; a missing step mean raises a KeyError only when that step is
first drawn; a non-positive mean raises a domain error only inside the
sampler at draw time.  (Resource capacities are fixed positive module
constants, so the zero-capacity pool case cannot arise.) -/
theorem config_error_behaviour (means : List (String × List (String × ℚ)))
    (sigmas : List (String × ℚ)) (step scen : String) :
    (∀ row mean, dictFind sigmas step = none →
      dictFind means step = some row → dictFind row scen = some mean →
      0 < mean →
      get_step_duration_checked means sigmas step scen = .ok (mean, 3/10))
    ∧ (dictFind means step = none →
        get_step_duration_checked means sigmas step scen = .error "KeyError")
    ∧ (∀ row mean, dictFind means step = some row → dictFind row scen = some mean →
        mean ≤ 0 →
        get_step_duration_checked means sigmas step scen
          = .error "ValueError: math domain error")
    ∧ 0 < DesCurrent.NUM_SCANNERS ∧ 0 < DesCurrent.NUM_ROBOTS
    ∧ 0 < DesV13.NUM_SCANNERS ∧ 0 < DesV13.NUM_ROBOTS := by
  refine ⟨?_, ?_, ?_, by decide, by decide, by decide, by decide⟩
  · intro row mean hsig hmean hrow hpos
    simp only [get_step_duration_checked, hmean, hrow, dictGetD, hsig]
    rw [if_neg (not_le.mpr hpos)]
  · intro hmean
    simp only [get_step_duration_checked, hmean]
  · intro row mean hmean hrow hnp
    simp only [get_step_duration_checked, hmean, hrow]
    rw [if_pos hnp]

theorem config_error_behaviour_witness :
    (get_step_duration_checked [("P", [("baseline", 2743/100)])]
        [("A", 35/100)] "P" "baseline" = Except.ok (2743/100, 3/10))
    ∧ (get_step_duration_checked [] [] "Q" "baseline" = Except.error "KeyError")
    ∧ (get_step_duration_checked [("P", [("baseline", 0)])] [] "P" "baseline"
        = Except.error "ValueError: math domain error") :=
  ⟨(config_error_behaviour [("P", [("baseline", 2743/100)])]
      [("A", 35/100)] "P" "baseline").1 [("baseline", 2743/100)] (2743/100)
      rfl rfl rfl (by norm_num),
   (config_error_behaviour [] [] "Q" "baseline").2.1 rfl,
   (config_error_behaviour [("P", [("baseline", 0)])] [] "P" "baseline").2.2.1
      [("baseline", 0)] 0 rfl rfl le_rfl⟩

open MeasureTheory ProbabilityTheory Real in
/-- Expectation of `exp(m + s·Z)` under a standard Gaussian: the classical
`exp(m + s²/2)`, by completing the square and translating the Gaussian
integral. -/
theorem exp_affine_gaussian_integral (m s : ℝ) :
    ∫ z, Real.exp (m + s * z) ∂(gaussianReal 0 1) = Real.exp (m + s ^ 2 / 2) := by
  rw [gaussianReal_of_var_ne_zero 0 one_ne_zero]
  have hpdf : gaussianPDF 0 1
      = fun x => ((Real.toNNReal (gaussianPDFReal 0 1 x) : NNReal) : ENNReal) := rfl
  rw [hpdf]
  rw [integral_withDensity_eq_integral_smul
    ((measurable_gaussianPDFReal 0 1).real_toNNReal) (fun z => Real.exp (m + s * z))]
  have hfun : (fun z => Real.toNNReal (gaussianPDFReal 0 1 z) • Real.exp (m + s * z))
      = fun z => (Real.exp (m + s ^ 2 / 2) * (Real.sqrt (2 * π))⁻¹)
          * Real.exp (-(z - s) ^ 2 / 2) := by
    funext z
    rw [NNReal.smul_def, Real.coe_toNNReal _ (gaussianPDFReal_nonneg 0 1 z)]
    rw [gaussianPDFReal]
    rw [NNReal.coe_one, mul_one, sub_zero]
    have hexps : -z ^ 2 / (2 * 1) + (m + s * z)
        = (m + s ^ 2 / 2) + (-(z - s) ^ 2 / 2) := by ring
    calc (√(2 * π))⁻¹ * rexp (-z ^ 2 / (2 * 1)) * rexp (m + s * z)
        = (√(2 * π))⁻¹ * rexp (-z ^ 2 / (2 * 1) + (m + s * z)) := by
          rw [mul_assoc, ← Real.exp_add]
      _ = (√(2 * π))⁻¹ * (rexp (m + s ^ 2 / 2) * rexp (-(z - s) ^ 2 / 2)) := by
          rw [hexps, Real.exp_add]
      _ = (rexp (m + s ^ 2 / 2) * (√(2 * π))⁻¹) * rexp (-(z - s) ^ 2 / 2) := by
          ring
  rw [hfun]
  rw [integral_mul_left]
  have htrans : ∫ z : ℝ, Real.exp (-(z - s) ^ 2 / 2)
      = ∫ z : ℝ, Real.exp (-z ^ 2 / 2) :=
    integral_sub_right_eq_self (μ := volume) (fun a : ℝ => Real.exp (-a ^ 2 / 2)) s
  rw [htrans]
  have hgform : (fun z : ℝ => Real.exp (-z ^ 2 / 2))
      = fun z : ℝ => Real.exp (-(1/2) * z ^ 2) := by
    funext z
    congr 1
    ring
  rw [hgform, integral_gaussian (1/2 : ℝ)]
  have hpi : (π : ℝ) / (1/2) = 2 * π := by ring
  rw [hpi]
  have hsqrt : (Real.sqrt (2 * π)) ≠ 0 :=
    ne_of_gt (Real.sqrt_pos.mpr (by positivity))
  field_simp

open MeasureTheory ProbabilityTheory in
/-- C3: for every `mean > 0` and `sigma ≥ 0`, the duration sampler is the
log-normal distribution with location parameter exactly
`ln(mean) - 0.5·sigma²` and scale parameter exactly `sigma`; its expected
value over the standard Gaussian draw equals the supplied mean, and every
value it returns is strictly positive. -/
theorem duration_sampler_spec (average_time variability : ℝ)
    (hm : 0 < average_time) (_hs : 0 ≤ variability) :
    (∀ z, generate_random_time_with_average average_time variability z
      = Real.exp ((Real.log average_time - 0.5 * variability ^ 2) + variability * z))
    ∧ (∀ z, 0 < generate_random_time_with_average average_time variability z)
    ∧ (∫ z, generate_random_time_with_average average_time variability z
        ∂(gaussianReal 0 1)) = average_time := by
  refine ⟨fun z => rfl, fun z => Real.exp_pos _, ?_⟩
  have h := exp_affine_gaussian_integral
    (Real.log average_time - 0.5 * variability ^ 2) variability
  show (∫ z, Real.exp ((Real.log average_time - 0.5 * variability ^ 2)
      + variability * z) ∂(gaussianReal 0 1)) = average_time
  rw [h]
  have hexp : (Real.log average_time - 0.5 * variability ^ 2) + variability ^ 2 / 2
      = Real.log average_time := by ring
  rw [hexp]
  exact Real.exp_log hm

open MeasureTheory ProbabilityTheory in
theorem duration_sampler_spec_witness :
    (0 : ℝ) < 1 ∧ (0 : ℝ) ≤ 0
    ∧ ((∀ z, generate_random_time_with_average 1 0 z
        = Real.exp ((Real.log 1 - 0.5 * 0 ^ 2) + 0 * z))
      ∧ (∀ z, 0 < generate_random_time_with_average 1 0 z)
      ∧ (∫ z, generate_random_time_with_average 1 0 z ∂(gaussianReal 0 1)) = 1) :=
  ⟨by norm_num, le_rfl, duration_sampler_spec 1 0 (by norm_num) le_rfl⟩

end CTScanDES
